import Mathlib

/-!
Shallow embedding of `compose.py` (image generation / augmentation pipeline).

Randomness: the Python code draws from the global `random` module
(`random.random()` returning a float in [0,1) and `random.randint`).  We
model the random source as an explicit list of rational draws in [0,1);
each operation consumes draws from the front of the list exactly where the
Python code calls `self.random` / `random.randint`, including Python's
short-circuit evaluation (a draw guarded by a disabled flag is not
consumed).  `random.randint lo hi` is modelled as `lo + ⌊q * (hi-lo+1)⌋`
for a unit-interval draw `q`, which ranges exactly over `[lo, hi]`.

Images: an RGBA raster is a width, a height and a pixel function; the
pixel-level primitives (mirror, crop, paste-with-alpha-mask, thumbnail,
brightness/contrast scaling) are the image-backend operations the code
gets from PIL; they are modelled here at the level of detail the verified
properties need (sizes, bounding boxes, which pixels an operation can
touch).  `rotate` and the blur filter never matter for any property below,
so they stay abstract as fields of a `Backend` structure.
-/

/-- RGBA pixel: four channels in 0..255. -/
abbrev Pix : Type := ℕ × ℕ × ℕ × ℕ

/-- An RGBA raster: intrinsic size plus a pixel function. -/
structure Img where
  width : ℕ
  height : ℕ
  pix : ℕ → ℕ → Pix

/-- The random source: a list of unit-interval draws, consumed front to back. -/
abbrev R : Type := List ℚ

/-- Consume the next draw (an exhausted stream yields 0, itself a valid draw). -/
def next (rs : R) : ℚ × R := (rs.headD 0, rs.tail)

/-- All draws of the stream lie in the unit interval [0,1). -/
def ValidStream (rs : R) : Prop := ∀ q ∈ rs, 0 ≤ q ∧ q < 1

/-- Python `int()` conversion: truncation toward zero. -/
def pyInt (q : ℚ) : ℤ := if q < 0 then ⌈q⌉ else ⌊q⌋

/-- Model of `random.randint lo hi` (requires `lo ≤ hi` in Python): for a
unit-interval draw `q` the value `lo + ⌊q*(hi-lo+1)⌋` ranges exactly over
the integers of `[lo, hi]`. -/
def randint (lo hi : ℤ) (q : ℚ) : ℤ := lo + ⌊q * ((hi - lo + 1 : ℤ) : ℚ)⌋

/-- `Transformation.random_int` (compose.py:122-126): casts both bounds with
`int()`, swaps them when reversed (instead of letting `randint` raise), then
draws. -/
def random_int (x y : ℚ) (q : ℚ) : ℤ :=
  let a := pyInt x
  let b := pyInt y
  if a > b then randint b a q else randint a b q

theorem randint_bounds (lo hi : ℤ) (q : ℚ) (hle : lo ≤ hi) (h0 : 0 ≤ q) (h1 : q < 1) :
    lo ≤ randint lo hi q ∧ randint lo hi q ≤ hi := by
  have hn : (0 : ℤ) < hi - lo + 1 := by omega
  have hnq : (0 : ℚ) < ((hi - lo + 1 : ℤ) : ℚ) := by exact_mod_cast hn
  have hlow : (0 : ℤ) ≤ ⌊q * ((hi - lo + 1 : ℤ) : ℚ)⌋ := by
    apply Int.floor_nonneg.mpr
    exact mul_nonneg h0 (le_of_lt hnq)
  have hup : ⌊q * ((hi - lo + 1 : ℤ) : ℚ)⌋ < hi - lo + 1 := by
    apply Int.floor_lt.mpr
    calc q * ((hi - lo + 1 : ℤ) : ℚ) < 1 * ((hi - lo + 1 : ℤ) : ℚ) :=
          mul_lt_mul_of_pos_right h1 hnq
    _ = ((hi - lo + 1 : ℤ) : ℚ) := one_mul _
  constructor
  · unfold randint; omega
  · unfold randint; omega

theorem pyInt_intCast (n : ℤ) : pyInt (n : ℚ) = n := by
  unfold pyInt
  by_cases h : (n : ℚ) < 0
  · rw [if_pos h]; exact_mod_cast Int.ceil_intCast n
  · rw [if_neg h]; exact_mod_cast Int.floor_intCast n

/-- Horizontal mirror (`Image.FLIP_LEFT_RIGHT`). -/
def transposeLR (img : Img) : Img :=
  ⟨img.width, img.height, fun i j => img.pix (img.width - 1 - i) j⟩

/-- Vertical mirror (`Image.FLIP_TOP_BOTTOM`). -/
def transposeTB (img : Img) : Img :=
  ⟨img.width, img.height, fun i j => img.pix i (img.height - 1 - j)⟩

/-- `Image.crop (left, top, right, bottom)`: the result has size
`(right-left, bottom-top)`; source pixels outside the original raster read
as transparent padding. -/
def cropImg (left top right bottom : ℤ) (img : Img) : Img :=
  ⟨(right - left).toNat, (bottom - top).toNat, fun i j =>
    let x := left + i
    let y := top + j
    if 0 ≤ x ∧ x < (img.width : ℤ) ∧ 0 ≤ y ∧ y < (img.height : ℤ) then
      img.pix x.toNat y.toNat
    else (0, 0, 0, 0)⟩

/-- Alpha blend of a background pixel with a foreground pixel, weighted by
the foreground's own alpha channel (the mask of `paste(..., mask=image)`). -/
def blendPix (b f : Pix) : Pix :=
  let a := f.2.2.2
  ((f.1 * a + b.1 * (255 - a)) / 255,
   (f.2.1 * a + b.2.1 * (255 - a)) / 255,
   (f.2.2.1 * a + b.2.2.1 * (255 - a)) / 255,
   (f.2.2.2 * a + b.2.2.2 * (255 - a)) / 255)

/-- `background.paste(image, (x, y), mask=image)`: mutates the background in
place; only pixels inside the placed foreground's bounding box can change. -/
def pasteMask (bg fg : Img) (x y : ℤ) : Img :=
  ⟨bg.width, bg.height, fun i j =>
    if x ≤ (i : ℤ) ∧ (i : ℤ) < x + fg.width ∧ y ≤ (j : ℤ) ∧ (j : ℤ) < y + fg.height then
      blendPix (bg.pix i j) (fg.pix ((i : ℤ) - x).toNat ((j : ℤ) - y).toNat)
    else bg.pix i j⟩

/-- A point (i,j) outside the box of size w×h anchored at (x,y). -/
def outsideBox (x y : ℤ) (w h : ℕ) (i j : ℕ) : Prop :=
  ¬(x ≤ (i : ℤ) ∧ (i : ℤ) < x + w ∧ y ≤ (j : ℤ) ∧ (j : ℤ) < y + h)

instance (x y : ℤ) (w h : ℕ) (i j : ℕ) : Decidable (outsideBox x y w h i j) := by
  unfold outsideBox; infer_instance

theorem pasteMask_outside (bg fg : Img) (x y : ℤ) (i j : ℕ)
    (h : outsideBox x y fg.width fg.height i j) :
    (pasteMask bg fg x y).pix i j = bg.pix i j := by
  unfold pasteMask
  simp only
  rw [if_neg h]

/-- `image.thumbnail([tw, th])`: aspect-preserving downscale to fit the box,
never upscaling; a no-op when the image already fits. -/
def thumbnail (img : Img) (tw th : ℤ) : Img :=
  if img.width = 0 ∨ img.height = 0 then img
  else if (img.width : ℤ) ≤ tw ∧ (img.height : ℤ) ≤ th then img
  else
    let r := min ((tw : ℚ) / img.width) ((th : ℚ) / img.height)
    let nw := max 1 (⌊(img.width : ℚ) * r⌋.toNat)
    let nh := max 1 (⌊(img.height : ℚ) * r⌋.toNat)
    ⟨nw, nh, fun i j => img.pix (i * img.width / nw) (j * img.height / nh)⟩

/-- Clamp an integer channel value into 0..255. -/
def clampChan (z : ℤ) : ℕ := min z.toNat 255

/-- Scale one channel by a rational factor (brightness enhancement). -/
def scaleChan (f : ℚ) (c : ℕ) : ℕ := clampChan ⌊(c : ℚ) * f⌋

/-- `ImageEnhance.Brightness(image).enhance(factor)`: every channel of every
pixel of the whole image is scaled by the factor. -/
def brightnessEnh (img : Img) (f : ℚ) : Img :=
  ⟨img.width, img.height, fun i j =>
    let p := img.pix i j
    (scaleChan f p.1, scaleChan f p.2.1, scaleChan f p.2.2.1, scaleChan f p.2.2.2)⟩

/-- Luma of a pixel (the L-mode conversion used by `ImageEnhance.Contrast`). -/
def grayVal (p : Pix) : ℕ := (p.1 * 299 + p.2.1 * 587 + p.2.2.1 * 114) / 1000

/-- Sum of the luma over the whole raster. -/
def graySum (img : Img) : ℕ :=
  (List.range img.height).foldl
    (fun acc j => (List.range img.width).foldl (fun a i => a + grayVal (img.pix i j)) acc) 0

/-- `ImageEnhance.Contrast(image).enhance(factor)`: interpolate each pixel
toward the mean gray level of the whole image. -/
def contrastEnh (img : Img) (f : ℚ) : Img :=
  let n := img.width * img.height
  let mean : ℕ := if n = 0 then 0 else (2 * graySum img + n) / (2 * n)
  ⟨img.width, img.height, fun i j =>
    let p := img.pix i j
    (clampChan ⌊(mean : ℚ) + f * ((p.1 : ℚ) - mean)⌋,
     clampChan ⌊(mean : ℚ) + f * ((p.2.1 : ℚ) - mean)⌋,
     clampChan ⌊(mean : ℚ) + f * ((p.2.2.1 : ℚ) - mean)⌋,
     p.2.2.2)⟩

/-- External image-manipulation collaborators whose pixel semantics no
verified property depends on: rotation with canvas expansion, the fixed
blur kernel, and decoding a path into an RGBA raster. -/
structure Backend where
  rotate : ℤ → Img → Img
  blurOp : Img → Img
  load : String → Img

/-!
The `Transformation` configuration record (compose.py:72-97).
-/

/-- All probability and range knobs, field for field as set by
`Transformation.reset_tfms` (compose.py:77-94). -/
structure Tfms where
  can_flip : Bool
  can_flip_vertical : Bool
  prob_flip : ℚ
  max_rotate : ℚ
  can_lighten : Bool
  max_lighting : ℚ
  lighting_prob : ℚ
  can_blur : Bool
  prob_blur : ℚ
  min_coverage : ℚ
  max_coverage : ℚ
  can_edge_crop : Bool
  edge_crop_prob : ℚ
  max_edge_crop : ℚ
  min_edge_crop : ℚ
  can_stretch : Bool
  stretch_prob : ℚ
deriving DecidableEq

/-- `Transformation.reset_tfms` (compose.py:77-94): the default knobs. -/
def reset_tfms : Tfms :=
  ⟨true, true, 1/2, 90, true, 3/5, 2/5, true, 1/20, 19/20, 99/100, true, 3/10, 1/2, 0, true, 2/5⟩

/-- Keyword options passed to the constructor, as name/value pairs. -/
abbrev Options : Type := List (String × ℚ)

/-- `Transformation.override_default_tfms` (compose.py:96-97): the body is
`pass`, so the record is returned unchanged whatever the options say. -/
def override_default_tfms (_options : Options) (t : Tfms) : Tfms := t

/-- `Transformation.__init__` (compose.py:73-75): reset to defaults, then run
the (no-op) override hook on the supplied options. -/
def transformationInit (options : Options) : Tfms :=
  override_default_tfms options reset_tfms

/-!
Augmentation steps (compose.py:99-202).  Each step threads the image value
(the Python code threads it through the mutable `self.image`) and the
random stream.
-/

/-- `Transformation.flip` (compose.py:128-131): with `can_flip`, draw once and
mirror horizontally when the draw is below `prob_flip`. -/
def flipStep (t : Tfms) (img : Img) (rs : R) : Img × R :=
  if t.can_flip then
    let (q, rs') := next rs
    if q < t.prob_flip then (transposeLR img, rs') else (img, rs')
  else (img, rs)

/-- `Transformation.flip_vertical` (compose.py:133-136): with both flags, draw
once and mirror vertically when the draw is above `prob_flip` (note the
`>`: the comparison is reversed with respect to `flip`). -/
def flip_vertical (t : Tfms) (img : Img) (rs : R) : Img × R :=
  if t.can_flip && t.can_flip_vertical then
    let (q, rs') := next rs
    if t.prob_flip < q then (transposeTB img, rs') else (img, rs')
  else (img, rs)

/-- `Transformation.rotate` (compose.py:138-140): always rotates by a uniform
integer angle in `[-max_rotate, max_rotate]`, expanding the canvas. -/
def rotateStep (B : Backend) (t : Tfms) (img : Img) (rs : R) : Img × R :=
  let (q, rs') := next rs
  (B.rotate (random_int (-t.max_rotate) t.max_rotate q) img, rs')

/-- `Transformation.blur` (compose.py:142-144): with `can_blur`, draw once and
apply the fixed blur filter when the draw is below `prob_blur`. -/
def blurStep (B : Backend) (t : Tfms) (img : Img) (rs : R) : Img × R :=
  if t.can_blur then
    let (q, rs') := next rs
    if q < t.prob_blur then (B.blurOp img, rs') else (img, rs')
  else (img, rs)

/-- `Transformation.transform` (compose.py:99-105): flip, vertical flip,
rotate, blur, in that order. -/
def transform (B : Backend) (t : Tfms) (img : Img) (rs : R) : Img × R :=
  let (i1, rs1) := flipStep t img rs
  let (i2, rs2) := flip_vertical t i1 rs1
  let (i3, rs3) := rotateStep B t i2 rs2
  blurStep B t i3 rs3

/-- The Crop-Edge Record: which of the four sides was trimmed to a
non-boundary position, in the order of compose.py:166. -/
structure CropMarks where
  left : Bool
  top : Bool
  right : Bool
  bottom : Bool
deriving DecidableEq

/-- One axis of `Transformation.edge_crop` (compose.py:150-161): with
probability `edge_crop_prob` draw a crop amount in
`[min_edge_crop*extent, max_edge_crop*extent]` and flip a coin for which
end to trim; returns the kept interval `(lo, hi)` of `[0, extent]`. -/
def edgeCropAxis (t : Tfms) (extent : ℕ) (rs : R) : (ℤ × ℤ) × R :=
  let (q1, rs) := next rs
  if q1 < t.edge_crop_prob then
    let (q2, rs) := next rs
    let amt := random_int (t.min_edge_crop * extent) (t.max_edge_crop * extent) q2
    let (q3, rs) := next rs
    if 1/2 < q3 then ((amt, (extent : ℤ)), rs) else ((0, (extent : ℤ) - amt), rs)
  else ((0, (extent : ℤ)), rs)

/-- `Transformation.edge_crop` with `return_which_cropped=True`
(compose.py:146-166): crop each axis independently and report which sides
were trimmed to a non-boundary line, together with the crop rectangle.
When `can_edge_crop` is false the Python code raises `NameError` at line
166 (the rectangle variables were never bound), modelled as `none`. -/
def cropMarksOf (left top right bottom w h : ℤ) : CropMarks :=
  ⟨decide (left ≠ 0), decide (top ≠ 0), decide (right ≠ w), decide (bottom ≠ h)⟩

def edge_crop (t : Tfms) (img : Img) (rs : R) :
    Option ((Img × CropMarks × (ℤ × ℤ × ℤ × ℤ)) × R) :=
  if t.can_edge_crop then
    let ((left, right), rs1) := edgeCropAxis t img.width rs
    let ((top, bottom), rs2) := edgeCropAxis t img.height rs1
    let marks := cropMarksOf left top right bottom (img.width : ℤ) (img.height : ℤ)
    some ((cropImg left top right bottom img, marks, (left, top, right, bottom)), rs2)
  else none

/-- `Transformation.resize` (compose.py:168-177): draw a target extent per
axis inside the coverage band of the canvas.  In the stretch branch the
non-uniform `image.resize` result assigned to `self.image` is immediately
overwritten by the unconditional `self.image = image` at line 176, so the
net effect of the stretch branch is to leave the image unchanged; in the
other branch `image.thumbnail` mutates the image in place and that object
is kept. -/
def resize (t : Tfms) (img : Img) (cw ch : ℕ) (rs : R) : Img × R :=
  let (q1, rs) := next rs
  let new_w := random_int (t.min_coverage * cw) (t.max_coverage * cw) q1
  let (q2, rs) := next rs
  let new_h := random_int (t.min_coverage * ch) (t.max_coverage * ch) q2
  if t.can_stretch then
    let (q3, rs') := next rs
    if q3 < t.stretch_prob then (img, rs') else (thumbnail img new_w new_h, rs')
  else (thumbnail img new_w new_h, rs)

/-- Result of one lighting adjustment: the image, whether the draw fired,
the factor used, and the rest of the stream. -/
structure LightRes where
  out : Img
  fired : Bool
  factor : ℚ
  rest : R

/-- `Transformation.change_lighting` (compose.py:179-185): with probability
`lighting_prob`, scale by `1 ± random()*max_lighting`, the sign chosen by
a further coin flip; applied to the whole image passed in. -/
def change_lighting (t : Tfms) (enh : Img → ℚ → Img) (img : Img) (rs : R) : LightRes :=
  let (q1, rs) := next rs
  if q1 < t.lighting_prob then
    let (q2, rs) := next rs
    let pct := q2 * t.max_lighting
    let (q3, rs) := next rs
    let factor := if q3 < 1/2 then 1 + pct else 1 - pct
    ⟨enh img factor, true, factor, rs⟩
  else ⟨img, false, 1, rs⟩

/-- `Transformation.brighten` (compose.py:187-188). -/
def brighten (t : Tfms) (img : Img) (rs : R) : LightRes :=
  change_lighting t brightnessEnh img rs

/-- `Transformation.contrast` (compose.py:190-191). -/
def contrastStep (t : Tfms) (img : Img) (rs : R) : LightRes :=
  change_lighting t contrastEnh img rs

/-- Result of `superimpose`: the composited canvas, the placement offset
actually used, and the rest of the stream. -/
structure SupRes where
  out : Img
  px : ℤ
  py : ℤ
  rest : R

/-- `Transformation.superimpose` (compose.py:193-202): draw a random offset
in `[0, background_extent - foreground_extent]` per axis (via `random_int`,
which reorders reversed bounds), then override an axis whenever its
Crop-Edge Record entries say an edge was trimmed to the boundary
(`x = where_info[2] * x_options`: 0 for a left trim, `x_options` for a
right trim), and paste with the foreground as its own alpha mask. -/
def superimpose (img bg : Img) (m : CropMarks) (rs : R) : SupRes :=
  let xo : ℤ := (bg.width : ℤ) - img.width
  let yo : ℤ := (bg.height : ℤ) - img.height
  let (q1, rs) := next rs
  let x0 := random_int 0 (xo : ℚ) q1
  let (q2, rs) := next rs
  let y0 := random_int 0 (yo : ℚ) q2
  let x := if m.left || m.right then (if m.right then xo else 0) else x0
  let y := if m.top || m.bottom then (if m.bottom then yo else 0) else y0
  ⟨pasteMask bg img x y, x, y, rs⟩

/-- Observations of one `post_transform` run. -/
structure PTRes where
  out : Img
  marks : CropMarks
  px : ℤ
  py : ℤ
  fgW : ℕ
  fgH : ℕ
  bFired : Bool
  cFired : Bool
  rest : R

/-- `Transformation.post_transform` (compose.py:107-116): edge-crop the
foreground, resize it against the background canvas, superimpose, then
brighten and contrast the composited canvas. -/
def post_transform (t : Tfms) (img bg : Img) (rs : R) : Option PTRes :=
  match edge_crop t img rs with
  | none => none
  | some ((img1, marks, _rect), rs1) =>
    let (img2, rs2) := resize t img1 bg.width bg.height rs1
    let s := superimpose img2 bg marks rs2
    let b := brighten t s.out s.rest
    let c := contrastStep t b.out b.rest
    some ⟨c.out, marks, s.px, s.py, img2.width, img2.height, b.fired, c.fired, c.rest⟩

/-!
Image Pool (`ImageData`, compose.py:9-69) and Sample Orchestrator
(`ImageMaker`, compose.py:205-240).  Filesystem enumeration is an external
collaborator: the list of discovered image paths and the list of immediate
subdirectory names are taken as inputs.
-/

/-- The class a discovered image is assigned to by the loop of
compose.py:56-64: the first subdirectory name `c` (in dict order, the
empty-string key being skipped by the `continue`) such that
`os.path.join(c, '')` — that is, `c ++ "/"` — occurs as a substring of the
image path; the for-else appends unmatched images to the empty-string
bucket. -/
def segAt (pat l : List Char) : Bool :=
  match pat, l with
  | [], _ => true
  | _ :: _, [] => false
  | p :: ps, x :: xs => p == x && segAt ps xs

/-- Whether `pat` occurs as a contiguous segment of `l` (the Python
`in` test on strings). -/
def segIn (pat l : List Char) : Bool :=
  match l with
  | [] => segAt pat []
  | _ :: xs => segAt pat l || segIn pat xs

/-- Python `sub in s` on strings. -/
def strIn (sub s : String) : Bool := segIn sub.toList s.toList

def assignedClass (subdirs : List String) (img : String) : String :=
  (subdirs.find? (fun c => strIn (c ++ "/") img)).getD ""

/-- `ImageData.class_from_subdir` (compose.py:50-65).  The dict starts with
the empty-string key, then gets one key per immediate subdirectory
(re-assigning a duplicate overwrites, hence `dedup`); the image loop then
appends each image to the bucket of its assigned class, so a bucket holds
exactly the discovered images assigned to its key, in discovery order. -/
def class_from_subdir (subdirs images : List String) : List (String × List String) :=
  ("" :: subdirs).dedup.map
    (fun c => (c, images.filter (fun im => assignedClass subdirs im == c)))

/-- `ImageData.separate_classes` (compose.py:67-69): returns the bucketed
mapping when the `subdir_is_class` option is set, and otherwise falls off
the end of the function, i.e. returns `None` (modelled as `none`). -/
def separate_classes (subdir_is_class : Bool) (subdirs images : List String) :
    Option (List (String × List String)) :=
  if subdir_is_class then some (class_from_subdir subdirs images) else none

/-- The `images` attribute after `ImageData.__init__` (compose.py:10-14):
the loaded flat list is overwritten by the result of `separate_classes`. -/
def imageDataImages (flatImages : List String) (subdirs : List String)
    (subdir_is_class : Bool) : Option (List (String × List String)) :=
  separate_classes subdir_is_class subdirs flatImages

/-- `random.choice seq`: pick the element at a uniform index; an empty
sequence raises `IndexError`, modelled as `none`. -/
def pyChoice {α : Type} (l : List α) (q : ℚ) : Option α :=
  l.get? (⌊q * l.length⌋).toNat

/-- The directory-preparation and bucket-pruning loop at the top of
`ImageMaker.generate` (compose.py:216-222), with CPython's for-loop
semantics: the iterator walks an index over the (mutated) list, so a
`classes.remove` shifts the remaining items left and the next item is
skipped.  `visited` records the classes for which the loop ensured an
output subdirectory exists (the `os.mkdir` calls), in order. -/
def generatePrepGo (isEmptyBucket : String → Bool) (i : ℕ) (l : List String)
    (visited : List String) : List String × List String :=
  if h : i < l.length then
    match isEmptyBucket (l.get ⟨i, h⟩) with
    | true => generatePrepGo isEmptyBucket (i + 1) (l.erase (l.get ⟨i, h⟩))
        (visited ++ [l.get ⟨i, h⟩])
    | false => generatePrepGo isEmptyBucket (i + 1) l (visited ++ [l.get ⟨i, h⟩])
  else (l, visited)
termination_by l.length - i
decreasing_by
  · have hle := (List.erase_sublist (l.get ⟨i, h⟩) l).length_le
    omega
  · omega

/-- Whether a bucket is falsy in `if not self.data.images.get(class_)`:
a missing key (`None`) or an empty list. -/
def bucketIsEmpty (buckets : List (String × List String)) (c : String) : Bool :=
  ((buckets.lookup c).getD []).isEmpty

/-- The preparation phase of `ImageMaker.generate` (compose.py:216-222) run
over the sorted key list `classes0`: returns the class list used by the
sampling loop and the classes for which a directory was ensured. -/
def generatePrep (buckets : List (String × List String)) (classes0 : List String) :
    List String × List String :=
  generatePrepGo (bucketIsEmpty buckets) 0 classes0 []

/-- Split a character list at every occurrence of `c` (Python `str.split`). -/
def splitOnChar (c : Char) : List Char → List (List Char)
  | [] => [[]]
  | x :: xs =>
    match splitOnChar c xs with
    | [] => if x == c then [[], []] else [[x]]
    | r :: rest => if x == c then [] :: r :: rest else (x :: r) :: rest

/-- Join pieces with a separator (Python `sep.join`). -/
def joinWith (sep : List Char) : List (List Char) → List Char
  | [] => []
  | [p] => p
  | p :: ps => p ++ sep ++ joinWith sep ps

/-- `os.path.split(p)[-1]`: the final path component. -/
def baseName (p : String) : String := ⟨(splitOnChar (Char.ofNat 47) p.data).getLastD []⟩

/-- The destination filename of compose.py:227-228: the time-derived
disambiguator (`str(time.time())` with its dot removed), followed by a
dot, is joined between the dot-separated parts of the source basename. -/
def imgNameOf (loc : String) (timeStr : String) : String :=
  ⟨joinWith (timeStr.data ++ [Char.ofNat 46]) (splitOnChar (Char.ofNat 46) (baseName loc).data)⟩

/-- `os.path.join(output_dir, class_, img_name)` for a possibly empty class
component. -/
def pathJoin (outDir class_ name : String) : String :=
  if class_ = "" then outDir ++ "/" ++ name else outDir ++ "/" ++ class_ ++ "/" ++ name

/-- One iteration of the sampling loop of `ImageMaker.generate`
(compose.py:224-237): choose a class, a foreground and a background, derive
the destination name from the foreground's basename and the wall-clock
time string, augment, composite, and return the sample with its path.
`none` models the `IndexError` of `random.choice` on an empty sequence or
the failure path of `post_transform`. -/
def genSample (B : Backend) (t : Tfms) (buckets : List (String × List String))
    (bgs : List String) (classes : List String) (outDir timeStr : String) (rs : R) :
    Option ((Img × String) × R) :=
  let (qc, rs) := next rs
  match pyChoice classes qc with
  | none => none
  | some class_ =>
    let (qi, rs) := next rs
    match pyChoice ((buckets.lookup class_).getD []) qi with
    | none => none
    | some loc =>
      let img_name := imgNameOf loc timeStr
      let (img, rs) := transform B t (B.load loc) rs
      let (qb, rs) := next rs
      match pyChoice bgs qb with
      | none => none
      | some bgLoc =>
        match post_transform t img (B.load bgLoc) rs with
        | none => none
        | some r => some ((r.out, pathJoin outDir class_ img_name), r.rest)

/-- The composited image of one sampling iteration (independent of the
destination-name computation). -/
def gsImg (B : Backend) (t : Tfms) (buckets : List (String × List String))
    (bgs : List String) (classes : List String) (outDir timeStr : String) (rs : R) :
    Option Img :=
  (genSample B t buckets bgs classes outDir timeStr rs).map (fun x => x.1.1)

/-- The destination path of one sampling iteration (empty when the
iteration fails). -/
def gsName (B : Backend) (t : Tfms) (buckets : List (String × List String))
    (bgs : List String) (classes : List String) (outDir timeStr : String) (rs : R) :
    String :=
  match genSample B t buckets bgs classes outDir timeStr rs with
  | some ((_, nm), _) => nm
  | none => ""

/-!
Observation projections of the `Option`-valued runs (used to state the
verified properties and to evaluate them on concrete inputs).
-/

/-- Crop-Edge Record of an `edge_crop` run (all-false on the failure path). -/
def ecMarks (t : Tfms) (img : Img) (rs : R) : CropMarks :=
  match edge_crop t img rs with
  | some ((_, m, _), _) => m
  | none => ⟨false, false, false, false⟩

/-- Crop rectangle (left, top, right, bottom) of an `edge_crop` run. -/
def ecRect (t : Tfms) (img : Img) (rs : R) : ℤ × ℤ × ℤ × ℤ :=
  match edge_crop t img rs with
  | some ((_, _, r), _) => r
  | none => (0, 0, 0, 0)

/-- Whether a `post_transform` run succeeds. -/
def ptIsSome (t : Tfms) (img bg : Img) (rs : R) : Bool :=
  (post_transform t img bg rs).isSome

/-- Crop-Edge Record observed by a `post_transform` run. -/
def ptMarks (t : Tfms) (img bg : Img) (rs : R) : CropMarks :=
  match post_transform t img bg rs with
  | some r => r.marks
  | none => ⟨false, false, false, false⟩

/-- Horizontal placement offset chosen by the `superimpose` call inside a
`post_transform` run. -/
def ptPx (t : Tfms) (img bg : Img) (rs : R) : ℤ :=
  match post_transform t img bg rs with
  | some r => r.px
  | none => 0

/-- Vertical placement offset chosen by the `superimpose` call inside a
`post_transform` run. -/
def ptPy (t : Tfms) (img bg : Img) (rs : R) : ℤ :=
  match post_transform t img bg rs with
  | some r => r.py
  | none => 0

/-- Width of the placed (post-resize) foreground of a `post_transform` run. -/
def ptFgW (t : Tfms) (img bg : Img) (rs : R) : ℕ :=
  match post_transform t img bg rs with
  | some r => r.fgW
  | none => 0

/-- Height of the placed (post-resize) foreground of a `post_transform` run. -/
def ptFgH (t : Tfms) (img bg : Img) (rs : R) : ℕ :=
  match post_transform t img bg rs with
  | some r => r.fgH
  | none => 0

/-- Whether the brightness adjustment fired in a `post_transform` run. -/
def ptBFired (t : Tfms) (img bg : Img) (rs : R) : Bool :=
  match post_transform t img bg rs with
  | some r => r.bFired
  | none => false

/-- Whether the contrast adjustment fired in a `post_transform` run. -/
def ptCFired (t : Tfms) (img bg : Img) (rs : R) : Bool :=
  match post_transform t img bg rs with
  | some r => r.cFired
  | none => false

/-- A pixel of the final output image of a `post_transform` run. -/
def ptPix (t : Tfms) (img bg : Img) (rs : R) (i j : ℕ) : Pix :=
  match post_transform t img bg rs with
  | some r => r.out.pix i j
  | none => (0, 0, 0, 0)

/-!
Helper lemmas about the random stream and the individual steps.
-/

instance (rs : R) : Decidable (ValidStream rs) := by
  unfold ValidStream; infer_instance

theorem validStream_tail {rs : R} (h : ValidStream rs) : ValidStream rs.tail :=
  fun q hq => h q (List.mem_of_mem_tail hq)

theorem validStream_headD {rs : R} (h : ValidStream rs) : 0 ≤ rs.headD 0 ∧ rs.headD 0 < 1 := by
  cases rs with
  | nil => exact ⟨le_refl 0, by norm_num⟩
  | cons a l => exact h a (List.mem_cons_self a l)

/-!
C3.  `ImageData` constructed without the class-bucketing flag.
-/

/-- C3: the claim says that without the class-bucketing flag the pool's
foreground collection is the flat collection of discovered references.  In
the code, `__init__` overwrites `self.images` with the result of
`separate_classes`, and `separate_classes` only returns a value in the
`subdir_is_class` branch — without the flag it falls off the end and
returns `None`, discarding the flat list entirely (every later use such as
`self.data.images.keys()` would crash).  This theorem evaluates the
embedded code: for every flat collection the stored pool is `none`. -/
theorem c3_flat_pool_discarded (flat subdirs : List String) :
    imageDataImages flat subdirs false = none := rfl

/-!
C4.  Configuration options at construction.
-/

/-- C4 counterexample: constructing `Transformation` with
`prob_flip = 9/10` does not store the supplied value — the record keeps the
default `1/2`, because `override_default_tfms` is a `pass` stub. -/
theorem c4_counterexample :
    (transformationInit [("prob_flip", (9 : ℚ)/10)]).prob_flip ≠ 9/10 := by
  norm_num [transformationInit, override_default_tfms, reset_tfms]

/-- C4 (amended): the constructed `Transformation` record ignores every
supplied option — `override_default_tfms` (compose.py:96-97) is a no-op
stub, so all knobs always hold the defaults of `reset_tfms`. -/
theorem c4_options_ignored (opts : Options) : transformationInit opts = reset_tfms := rfl

/-!
C5.  Directory preparation and bucket pruning in `ImageMaker.generate`.
-/

/-- C5: evaluating the embedded preparation loop of
`ImageMaker.generate` on buckets `a ↦ [], b ↦ [], c ↦ [x.png]` (sorted key
list `[a, b, c]`): `os.mkdir` runs before the emptiness test, so a
directory is ensured for the empty bucket `a`; and `classes.remove('a')`
during iteration shifts the list so `b` is skipped, leaving the empty
bucket `b` in the sampling list (a draw of `b` then evaluates
`random.choice([])`, an `IndexError`).  Both halves of the claim fail. -/
theorem c5_prep_loop_eval :
    generatePrep [("a", []), ("b", []), ("c", ["x.png"])] ["a", "b", "c"]
        = (["b", "c"], ["a", "c"]) ∧
    bucketIsEmpty [("a", []), ("b", []), ("c", ["x.png"])] "b" = true ∧
    bucketIsEmpty [("a", []), ("b", []), ("c", ["x.png"])] "a" = true := by
  refine ⟨?_, rfl, rfl⟩
  simp [generatePrep, generatePrepGo, bucketIsEmpty, List.lookup]

/-!
C7.  Class buckets form a partition of the discovered images.
-/

/-- C7: for every list of immediate subdirectory names and discovered
foreground images, the buckets returned by `class_from_subdir` are
pairwise disjoint (an image sits only in the bucket of its assigned class)
and their union — the empty-string bucket included — is exactly the
discovered set. -/
theorem c7_buckets_partition (subdirs images : List String) :
    (∀ p₁ ∈ class_from_subdir subdirs images, ∀ p₂ ∈ class_from_subdir subdirs images,
        p₁.1 ≠ p₂.1 → ∀ x, x ∈ p₁.2 → x ∉ p₂.2) ∧
    (∀ x, x ∈ images ↔ ∃ p ∈ class_from_subdir subdirs images, x ∈ p.2) := by
  constructor
  · intro p₁ hp₁ p₂ hp₂ hne x hx₁ hx₂
    rcases List.mem_map.mp hp₁ with ⟨c₁, _, rfl⟩
    rcases List.mem_map.mp hp₂ with ⟨c₂, _, rfl⟩
    have h₁ := (List.mem_filter.mp hx₁).2
    have h₂ := (List.mem_filter.mp hx₂).2
    rw [beq_iff_eq] at h₁ h₂
    exact hne (by simp only at h₁ h₂ ⊢; rw [← h₁, ← h₂])
  · intro x
    constructor
    · intro hx
      refine ⟨(assignedClass subdirs x,
        images.filter (fun im => assignedClass subdirs im == assignedClass subdirs x)),
        List.mem_map.mpr ⟨assignedClass subdirs x, ?_, rfl⟩,
        List.mem_filter.mpr ⟨hx, by simp⟩⟩
      apply List.mem_dedup.mpr
      unfold assignedClass
      cases hf : subdirs.find? (fun c => strIn (c ++ "/") x) with
      | none => simp
      | some c0 => simpa using Or.inr (List.mem_of_find?_eq_some hf)
    · rintro ⟨p, hp, hxp⟩
      rcases List.mem_map.mp hp with ⟨c, _, rfl⟩
      exact (List.mem_filter.mp hxp).1

/-- C7 witness: with one class folder `cat` and discovered images
`cat/a.png` and `b.png`, the partition theorem instantiated at the bucket
pair (`cat`, `""`) shows `cat/a.png` does not also sit in the unclassified
bucket. -/
theorem c7_buckets_partition_witness :
    ("cat/a.png" : String) ∉ (("", ["b.png"]) : String × List String).2 :=
  (c7_buckets_partition ["cat"] ["cat/a.png", "b.png"]).1
    ("cat", ["cat/a.png"]) (by decide) ("", ["b.png"]) (by decide) (by decide)
    "cat/a.png" (by decide)

/-!
C8.  Vertical flip: enabled-only, independent draw, same probability.
-/

/-- The firing condition of `Transformation.flip` at a draw `q`. -/
def flipFires (t : Tfms) (q : ℚ) : Bool := t.can_flip && decide (q < t.prob_flip)

/-- The firing condition of `Transformation.flip_vertical` at a draw `q`
(note the reversed comparison `self.random > self.prob_flip`). -/
def vflipFires (t : Tfms) (q : ℚ) : Bool :=
  t.can_flip && t.can_flip_vertical && decide (t.prob_flip < q)

theorem flipStep_cons (t : Tfms) (img : Img) (q : ℚ) (rs : R) (h : t.can_flip = true) :
    flipStep t img (q :: rs) = ((if flipFires t q then transposeLR img else img), rs) := by
  simp only [flipStep, flipFires, next, h, if_true, List.headD_cons, List.tail_cons,
    Bool.true_and]
  by_cases hq : q < t.prob_flip <;> simp [hq]

theorem flip_vertical_cons (t : Tfms) (img : Img) (q : ℚ) (rs : R)
    (h1 : t.can_flip = true) (h2 : t.can_flip_vertical = true) :
    flip_vertical t img (q :: rs) = ((if vflipFires t q then transposeTB img else img), rs) := by
  simp only [flip_vertical, vflipFires, next, h1, h2, List.headD_cons, List.tail_cons,
    Bool.true_and, Bool.and_self]
  by_cases hq : t.prob_flip < q <;> simp [hq]

/-- C8: (i) when horizontal flipping is disabled the vertical-flip step never
changes the image (its guard `self.can_flip and self.can_flip_vertical and ...`
short-circuits); (ii) in the flip phase of `transform` on any constructed
`Transformation` record, the horizontal decision is a function of the first
draw alone and the vertical decision of the second draw alone — two
independently sampled draws; (iii) the set of draw values firing the
vertical flip is carried onto the set firing the horizontal flip by the
reflection `q ↦ 1 - q`, a measure-preserving involution of the unit
interval, so both fire with probability `prob_flip` (the constructed
record always has `prob_flip = 1/2`, and the vertical guard `random > 1/2`
fires with that same probability 1/2). -/
theorem c8_vertical_flip (opts : Options) (t' : Tfms) (img : Img) (q q1 q2 : ℚ) (rs : R) :
    (t'.can_flip = false → flip_vertical t' img rs = (img, rs)) ∧
    ((flip_vertical (transformationInit opts)
        (flipStep (transformationInit opts) img (q1 :: q2 :: rs)).1
        (flipStep (transformationInit opts) img (q1 :: q2 :: rs)).2)
      = ((if vflipFires (transformationInit opts) q2 then
            transposeTB
              (if flipFires (transformationInit opts) q1 then transposeLR img else img)
          else
            (if flipFires (transformationInit opts) q1 then transposeLR img else img)), rs)) ∧
    (vflipFires (transformationInit opts) (1 - q) = flipFires (transformationInit opts) q) := by
  refine ⟨?_, ?_, ?_⟩
  · intro h
    simp [flip_vertical, h]
  · rw [flipStep_cons _ _ _ _ rfl]
    exact flip_vertical_cons _ _ _ _ rfl rfl
  · show vflipFires reset_tfms (1 - q) = flipFires reset_tfms q
    simp only [vflipFires, flipFires, reset_tfms, Bool.true_and, Bool.and_self]
    rcases lt_trichotomy q (1/2 : ℚ) with h | h | h
    · rw [decide_eq_true (by linarith : (1:ℚ)/2 < 1 - q), decide_eq_true h]
    · rw [decide_eq_false (by rw [h]; norm_num : ¬((1:ℚ)/2 < 1 - q)),
        decide_eq_false (by rw [h]; exact lt_irrefl _)]
    · rw [decide_eq_false (by linarith : ¬((1:ℚ)/2 < 1 - q)),
        decide_eq_false (by linarith : ¬(q < 1/2))]

/-- A concrete foreground raster used by the witnesses below. -/
def cFg : Img := ⟨2, 2, fun _ _ => (50, 50, 50, 255)⟩

/-- A concrete background raster used by the witnesses below. -/
def cBg : Img := ⟨4, 4, fun _ _ => (100, 100, 100, 255)⟩

/-- A `Transformation` record with horizontal flipping disabled (not
producible by the constructor; exercises the enabled-only guard). -/
def tNoFlip : Tfms := { reset_tfms with can_flip := false }

/-- C8 witness: at the concrete record with `can_flip = False` the vertical
flip leaves the image and the stream untouched, and at the constructed
record the draw value 1/4 fires the horizontal flip while its reflection
3/4 fires the vertical flip. -/
theorem c8_vertical_flip_witness :
    flip_vertical tNoFlip cFg [(1 : ℚ)/4] = (cFg, [(1 : ℚ)/4]) ∧
    vflipFires (transformationInit []) (1 - 1/4) = flipFires (transformationInit []) (1/4) :=
  ⟨(c8_vertical_flip [] tNoFlip cFg 0 0 0 [(1 : ℚ)/4]).1 rfl,
   (c8_vertical_flip [] tNoFlip cFg (1/4) 0 0 []).2.2⟩

/-!
C10.  `superimpose` is total; an oversized foreground gets a non-positive
offset drawn over the reordered range.
-/

theorem random_int_reversed (n : ℤ) (q : ℚ) (hn : n < 0) :
    random_int 0 (n : ℚ) q = randint n 0 q := by
  unfold random_int
  rw [pyInt_intCast]
  have h0 : pyInt ((0 : ℤ) : ℚ) = (0 : ℤ) := pyInt_intCast 0
  simp only [Int.cast_zero] at h0
  rw [h0, if_pos (by omega : (0 : ℤ) > n)]

/-- C10: `superimpose` is total over all sizes.  The pasted canvas always
has the background's dimensions, and when the foreground's extent exceeds
the background's on an axis (and no crop mark overrides that axis), the
offset is exactly `randint (background_extent - foreground_extent) 0` of
the axis draw — `random_int` reorders the reversed bounds `0 > extent
difference` instead of letting `random.randint` raise — hence a
non-positive value in `[background_extent - foreground_extent, 0]`, and
the paste proceeds with the foreground partially off-canvas. -/
theorem c10_superimpose_total (img bg : Img) (m : CropMarks) (rs : R)
    (hv : ValidStream rs) :
    (superimpose img bg m rs).out.width = bg.width ∧
    (superimpose img bg m rs).out.height = bg.height ∧
    (m = ⟨false, false, false, false⟩ → bg.width < img.width →
      (superimpose img bg m rs).px = randint ((bg.width : ℤ) - img.width) 0 (rs.headD 0) ∧
      (bg.width : ℤ) - img.width ≤ (superimpose img bg m rs).px ∧
      (superimpose img bg m rs).px ≤ 0) ∧
    (m = ⟨false, false, false, false⟩ → bg.height < img.height →
      (superimpose img bg m rs).py = randint ((bg.height : ℤ) - img.height) 0 (rs.tail.headD 0) ∧
      (bg.height : ℤ) - img.height ≤ (superimpose img bg m rs).py ∧
      (superimpose img bg m rs).py ≤ 0) := by
  refine ⟨rfl, rfl, ?_, ?_⟩
  · rintro rfl hw
    have hn : ((bg.width : ℤ) - img.width) < 0 := by
      have : (bg.width : ℤ) < img.width := by exact_mod_cast hw
      omega
    have hq := validStream_headD hv
    have heq : (superimpose img bg ⟨false, false, false, false⟩ rs).px
        = random_int 0 (((bg.width : ℤ) - img.width : ℤ) : ℚ) (rs.headD 0) := by
      simp [superimpose, next]
    rw [heq, random_int_reversed _ _ hn]
    exact ⟨rfl, (randint_bounds _ _ _ (by omega) hq.1 hq.2).1,
      (randint_bounds _ _ _ (by omega) hq.1 hq.2).2⟩
  · rintro rfl hh
    have hn : ((bg.height : ℤ) - img.height) < 0 := by
      have : (bg.height : ℤ) < img.height := by exact_mod_cast hh
      omega
    have hq := validStream_headD (validStream_tail hv)
    have heq : (superimpose img bg ⟨false, false, false, false⟩ rs).py
        = random_int 0 (((bg.height : ℤ) - img.height : ℤ) : ℚ) (rs.tail.headD 0) := by
      simp [superimpose, next]
    rw [heq, random_int_reversed _ _ hn]
    exact ⟨rfl, (randint_bounds _ _ _ (by omega) hq.1 hq.2).1,
      (randint_bounds _ _ _ (by omega) hq.1 hq.2).2⟩

/-- An oversized concrete foreground raster. -/
def cFgBig : Img := ⟨5, 5, fun _ _ => (50, 50, 50, 255)⟩

/-- A small concrete background raster. -/
def cBgSmall : Img := ⟨3, 3, fun _ _ => (100, 100, 100, 255)⟩

/-- C10 witness: a 5×5 foreground over a 3×3 background with zero draws is
placed at offset (−2, −2) — inside `[-2, 0]` — and the composited canvas
is still 3×3. -/
theorem c10_superimpose_total_witness :
    (superimpose cFgBig cBgSmall ⟨false, false, false, false⟩ [0, 0]).out.width
        = cBgSmall.width ∧
    (-2 : ℤ) ≤ (superimpose cFgBig cBgSmall ⟨false, false, false, false⟩ [0, 0]).px ∧
    (superimpose cFgBig cBgSmall ⟨false, false, false, false⟩ [0, 0]).px ≤ 0 :=
  have h := c10_superimpose_total cFgBig cBgSmall ⟨false, false, false, false⟩ [0, 0]
    (by decide)
  ⟨h.1, (h.2.2.1 rfl (by decide)).2.1, (h.2.2.1 rfl (by decide)).2.2⟩

/-!
C9.  Edge crop trims at most one edge per axis and keeps a positive extent.
-/

theorem edgeCropAxis_shape (t : Tfms) (e : ℕ) (rs : R) :
    edgeCropAxis t e rs = ((0, (e : ℤ)), rs.tail) ∨
    edgeCropAxis t e rs
      = ((random_int (t.min_edge_crop * e) (t.max_edge_crop * e) (rs.tail.headD 0), (e : ℤ)),
         rs.tail.tail.tail) ∨
    edgeCropAxis t e rs
      = ((0, (e : ℤ) - random_int (t.min_edge_crop * e) (t.max_edge_crop * e) (rs.tail.headD 0)),
         rs.tail.tail.tail) := by
  unfold edgeCropAxis next
  dsimp only
  by_cases h1 : rs.headD 0 < t.edge_crop_prob
  · by_cases h3 : (1 : ℚ)/2 < rs.tail.tail.headD 0
    · refine Or.inr (Or.inl ?_)
      rw [if_pos h1, if_pos h3]
    · refine Or.inr (Or.inr ?_)
      rw [if_pos h1, if_neg h3]
  · refine Or.inl ?_
    rw [if_neg h1]

theorem edgeCropAxis_lo_ne_zero (t : Tfms) (e : ℕ) (rs : R)
    (h : (edgeCropAxis t e rs).1.1 ≠ 0) : (edgeCropAxis t e rs).1.2 = (e : ℤ) := by
  rcases edgeCropAxis_shape t e rs with hs | hs | hs <;> rw [hs] at h ⊢
  all_goals first
  | rfl
  | exact absurd rfl h

theorem edgeCropAxis_rest_valid (t : Tfms) (e : ℕ) (rs : R) (hv : ValidStream rs) :
    ValidStream (edgeCropAxis t e rs).2 := by
  rcases edgeCropAxis_shape t e rs with hs | hs | hs <;> rw [hs]
  · exact validStream_tail hv
  · exact validStream_tail (validStream_tail (validStream_tail hv))
  · exact validStream_tail (validStream_tail (validStream_tail hv))

theorem random_int_bounds_nonneg (x y q : ℚ) (hx : 0 ≤ x) (hxy : x ≤ y)
    (h0 : 0 ≤ q) (h1 : q < 1) :
    0 ≤ random_int x y q ∧ random_int x y q ≤ ⌊y⌋ := by
  unfold random_int
  have hpx : pyInt x = ⌊x⌋ := if_neg (not_lt.mpr hx)
  have hpy : pyInt y = ⌊y⌋ := if_neg (not_lt.mpr (le_trans hx hxy))
  have hle : ⌊x⌋ ≤ ⌊y⌋ := Int.floor_le_floor hxy
  rw [hpx, hpy, if_neg (not_lt.mpr hle)]
  have hb := randint_bounds ⌊x⌋ ⌊y⌋ q hle h0 h1
  exact ⟨le_trans (Int.floor_nonneg.mpr hx) hb.1, hb.2⟩

theorem edgeCropAxis_bounds (t : Tfms) (e : ℕ) (rs : R)
    (h0 : 0 ≤ t.min_edge_crop) (h1 : t.min_edge_crop ≤ t.max_edge_crop)
    (h2 : t.max_edge_crop ≤ 1/2) (he : 0 < e) (hv : ValidStream rs) :
    0 ≤ (edgeCropAxis t e rs).1.1 ∧
    (edgeCropAxis t e rs).1.1 < (edgeCropAxis t e rs).1.2 ∧
    (edgeCropAxis t e rs).1.2 ≤ (e : ℤ) := by
  have hq := validStream_headD (validStream_tail hv)
  have hxnn : (0 : ℚ) ≤ t.min_edge_crop * e := mul_nonneg h0 (by positivity)
  have hxy : t.min_edge_crop * e ≤ t.max_edge_crop * e :=
    mul_le_mul_of_nonneg_right h1 (by positivity)
  have hamt := random_int_bounds_nonneg _ _ _ hxnn hxy hq.1 hq.2
  have hepos : (0 : ℚ) < (e : ℚ) := by exact_mod_cast he
  have hfl : ⌊t.max_edge_crop * (e : ℚ)⌋ < (e : ℤ) := by
    apply Int.floor_lt.mpr
    push_cast
    nlinarith
  have hamtlt : random_int (t.min_edge_crop * e) (t.max_edge_crop * e) (rs.tail.headD 0)
      < (e : ℤ) := lt_of_le_of_lt hamt.2 hfl
  rcases edgeCropAxis_shape t e rs with hs | hs | hs <;> rw [hs] <;> dsimp only
  · exact ⟨le_refl 0, by exact_mod_cast he, le_refl _⟩
  · exact ⟨hamt.1, hamtlt, le_refl _⟩
  · exact ⟨le_refl 0, by omega, by omega⟩

/-- C9: in every `edge_crop` run (with hypotheses satisfied by every
constructed `Transformation` record: `min_edge_crop = 0 ≤ max_edge_crop =
1/2 ≤ 1/2`), the per-axis coin picks the leading or the trailing edge but
never both, so the Crop-Edge Record never marks left and right together,
nor top and bottom together; and the crop rectangle keeps a positive
extent on both axes. -/
theorem c9_edge_crop_sound (t : Tfms) (img : Img) (rs : R)
    (hf : t.can_edge_crop = true)
    (h0 : 0 ≤ t.min_edge_crop) (h1 : t.min_edge_crop ≤ t.max_edge_crop)
    (h2 : t.max_edge_crop ≤ 1/2)
    (hw : 0 < img.width) (hh : 0 < img.height) (hv : ValidStream rs) :
    ¬((ecMarks t img rs).left = true ∧ (ecMarks t img rs).right = true) ∧
    ¬((ecMarks t img rs).top = true ∧ (ecMarks t img rs).bottom = true) ∧
    (ecRect t img rs).1 < (ecRect t img rs).2.2.1 ∧
    (ecRect t img rs).2.1 < (ecRect t img rs).2.2.2 := by
  rcases hX : edgeCropAxis t img.width rs with ⟨⟨lox, hix⟩, rs1⟩
  rcases hY : edgeCropAxis t img.height rs1 with ⟨⟨loy, hiy⟩, rs2⟩
  have hEC : edge_crop t img rs
      = some ((cropImg lox loy hix hiy img,
          cropMarksOf lox loy hix hiy (img.width : ℤ) (img.height : ℤ),
          (lox, loy, hix, hiy)), rs2) := by
    simp [edge_crop, hf, hX, hY]
  have hM : ecMarks t img rs
      = cropMarksOf lox loy hix hiy (img.width : ℤ) (img.height : ℤ) := by
    simp [ecMarks, hEC]
  have hR : ecRect t img rs = (lox, loy, hix, hiy) := by
    simp [ecRect, hEC]
  have hv1 : ValidStream rs1 := by
    have hrest := edgeCropAxis_rest_valid t img.width rs hv
    rw [hX] at hrest
    exact hrest
  have hxb := edgeCropAxis_bounds t img.width rs h0 h1 h2 hw hv
  have hyb := edgeCropAxis_bounds t img.height rs1 h0 h1 h2 hh hv1
  rw [hX] at hxb
  rw [hY] at hyb
  dsimp only at hxb hyb
  refine ⟨?_, ?_, ?_, ?_⟩
  · rw [hM]
    rintro ⟨hl, hr⟩
    have hlo : lox ≠ 0 := of_decide_eq_true hl
    have hhi := edgeCropAxis_lo_ne_zero t img.width rs (by rw [hX]; exact hlo)
    rw [hX] at hhi
    exact (of_decide_eq_true hr) hhi
  · rw [hM]
    rintro ⟨hl, hr⟩
    have hlo : loy ≠ 0 := of_decide_eq_true hl
    have hhi := edgeCropAxis_lo_ne_zero t img.height rs1 (by rw [hY]; exact hlo)
    rw [hY] at hhi
    exact (of_decide_eq_true hr) hhi
  · rw [hR]; exact hxb.2.1
  · rw [hR]; exact hyb.2.1

/-!
C1.  Edge-anchor invariant of `superimpose` inside `post_transform`.
-/

theorem superimpose_px_left (img bg : Img) (m : CropMarks) (rs : R)
    (hl : m.left = true) (hr : m.right = false) : (superimpose img bg m rs).px = 0 := by
  simp [superimpose, next, hl, hr]

theorem superimpose_px_right (img bg : Img) (m : CropMarks) (rs : R)
    (hr : m.right = true) : (superimpose img bg m rs).px = (bg.width : ℤ) - img.width := by
  simp [superimpose, next, hr]

theorem superimpose_py_top (img bg : Img) (m : CropMarks) (rs : R)
    (ht : m.top = true) (hb : m.bottom = false) : (superimpose img bg m rs).py = 0 := by
  simp [superimpose, next, ht, hb]

theorem superimpose_py_bottom (img bg : Img) (m : CropMarks) (rs : R)
    (hb : m.bottom = true) : (superimpose img bg m rs).py = (bg.height : ℤ) - img.height := by
  simp [superimpose, next, hb]

/-- C1: in every `post_transform` run, a Crop-Edge Record marking the left
edge forces the horizontal offset chosen by `superimpose` to 0; marking
the right edge forces it to `background_width - foreground_width` (the
placed, post-resize foreground width); and symmetrically on the vertical
axis for top/bottom — the random offset draw is overridden. -/
theorem c1_edge_anchor (t : Tfms) (img bg : Img) (rs : R) (hf : t.can_edge_crop = true) :
    ((ptMarks t img bg rs).left = true → ptPx t img bg rs = 0) ∧
    ((ptMarks t img bg rs).right = true →
      ptPx t img bg rs = (bg.width : ℤ) - ptFgW t img bg rs) ∧
    ((ptMarks t img bg rs).top = true → ptPy t img bg rs = 0) ∧
    ((ptMarks t img bg rs).bottom = true →
      ptPy t img bg rs = (bg.height : ℤ) - ptFgH t img bg rs) := by
  rcases hX : edgeCropAxis t img.width rs with ⟨⟨lox, hix⟩, rs1⟩
  rcases hY : edgeCropAxis t img.height rs1 with ⟨⟨loy, hiy⟩, rs2⟩
  have hEC : edge_crop t img rs
      = some ((cropImg lox loy hix hiy img,
          cropMarksOf lox loy hix hiy (img.width : ℤ) (img.height : ℤ),
          (lox, loy, hix, hiy)), rs2) := by
    simp [edge_crop, hf, hX, hY]
  rcases hRZ : resize t (cropImg lox loy hix hiy img) bg.width bg.height rs2 with ⟨img2, rs3⟩
  have hMk : ptMarks t img bg rs
      = cropMarksOf lox loy hix hiy (img.width : ℤ) (img.height : ℤ) := by
    simp [ptMarks, post_transform, hEC, hRZ]
  have hPx : ptPx t img bg rs
      = (superimpose img2 bg
          (cropMarksOf lox loy hix hiy (img.width : ℤ) (img.height : ℤ)) rs3).px := by
    simp [ptPx, post_transform, hEC, hRZ]
  have hPy : ptPy t img bg rs
      = (superimpose img2 bg
          (cropMarksOf lox loy hix hiy (img.width : ℤ) (img.height : ℤ)) rs3).py := by
    simp [ptPy, post_transform, hEC, hRZ]
  have hW : ptFgW t img bg rs = img2.width := by
    simp [ptFgW, post_transform, hEC, hRZ]
  have hH : ptFgH t img bg rs = img2.height := by
    simp [ptFgH, post_transform, hEC, hRZ]
  refine ⟨?_, ?_, ?_, ?_⟩
  · intro hl
    rw [hMk] at hl
    have hlo : lox ≠ 0 := of_decide_eq_true hl
    have hhi : hix = (img.width : ℤ) := by
      have h0 := edgeCropAxis_lo_ne_zero t img.width rs (by rw [hX]; exact hlo)
      rw [hX] at h0
      exact h0
    have hr : (cropMarksOf lox loy hix hiy (img.width : ℤ) (img.height : ℤ)).right = false := by
      simp [cropMarksOf, hhi]
    rw [hPx]
    exact superimpose_px_left _ _ _ _ hl hr
  · intro hr
    rw [hMk] at hr
    rw [hPx, hW]
    exact superimpose_px_right _ _ _ _ hr
  · intro ht
    rw [hMk] at ht
    have hlo : loy ≠ 0 := of_decide_eq_true ht
    have hhi : hiy = (img.height : ℤ) := by
      have h0 := edgeCropAxis_lo_ne_zero t img.height rs1 (by rw [hY]; exact hlo)
      rw [hY] at h0
      exact h0
    have hb : (cropMarksOf lox loy hix hiy (img.width : ℤ) (img.height : ℤ)).bottom = false := by
      simp [cropMarksOf, hhi]
    rw [hPy]
    exact superimpose_py_top _ _ _ _ ht hb
  · intro hb
    rw [hMk] at hb
    rw [hPy, hH]
    exact superimpose_py_bottom _ _ _ _ hb

/-!
C2.  Pixels outside the placed foreground's bounding box.
-/

theorem change_lighting_not_fired (t : Tfms) (enh : Img → ℚ → Img) (img : Img) (rs : R)
    (h : (change_lighting t enh img rs).fired = false) :
    (change_lighting t enh img rs).out = img := by
  unfold change_lighting next at h ⊢
  dsimp only at h ⊢
  by_cases hq : rs.headD 0 < t.lighting_prob
  · rw [if_pos hq] at h
    exact absurd h (by simp)
  · rw [if_neg hq]

theorem brighten_not_fired (t : Tfms) (img : Img) (rs : R)
    (h : (brighten t img rs).fired = false) : (brighten t img rs).out = img :=
  change_lighting_not_fired t brightnessEnh img rs h

theorem contrastStep_not_fired (t : Tfms) (img : Img) (rs : R)
    (h : (contrastStep t img rs).fired = false) : (contrastStep t img rs).out = img :=
  change_lighting_not_fired t contrastEnh img rs h

/-- C2 (amended): pixels outside the placed foreground's bounding box are
untouched by the alpha-masked paste, so in every `post_transform` run in
which neither lighting draw fires they equal the original background
pixels exactly.  (In runs where a lighting draw fires they instead equal
the background pixel with the run's uniform brightness/contrast adjustment
applied, because `brighten`/`contrast` run on the whole composited canvas
after the paste — see the counterexample.) -/
theorem c2_alpha_mask_outside (t : Tfms) (img bg : Img) (rs : R) (i j : ℕ)
    (hf : t.can_edge_crop = true)
    (hb : ptBFired t img bg rs = false) (hc : ptCFired t img bg rs = false)
    (ho : outsideBox (ptPx t img bg rs) (ptPy t img bg rs)
      (ptFgW t img bg rs) (ptFgH t img bg rs) i j) :
    ptPix t img bg rs i j = bg.pix i j := by
  rcases hX : edgeCropAxis t img.width rs with ⟨⟨lox, hix⟩, rs1⟩
  rcases hY : edgeCropAxis t img.height rs1 with ⟨⟨loy, hiy⟩, rs2⟩
  have hEC : edge_crop t img rs
      = some ((cropImg lox loy hix hiy img,
          cropMarksOf lox loy hix hiy (img.width : ℤ) (img.height : ℤ),
          (lox, loy, hix, hiy)), rs2) := by
    simp [edge_crop, hf, hX, hY]
  rcases hRZ : resize t (cropImg lox loy hix hiy img) bg.width bg.height rs2 with ⟨img2, rs3⟩
  have hPx : ptPx t img bg rs
      = (superimpose img2 bg
          (cropMarksOf lox loy hix hiy (img.width : ℤ) (img.height : ℤ)) rs3).px := by
    simp [ptPx, post_transform, hEC, hRZ]
  have hPy : ptPy t img bg rs
      = (superimpose img2 bg
          (cropMarksOf lox loy hix hiy (img.width : ℤ) (img.height : ℤ)) rs3).py := by
    simp [ptPy, post_transform, hEC, hRZ]
  have hW : ptFgW t img bg rs = img2.width := by
    simp [ptFgW, post_transform, hEC, hRZ]
  have hH : ptFgH t img bg rs = img2.height := by
    simp [ptFgH, post_transform, hEC, hRZ]
  have hBF : ptBFired t img bg rs
      = (brighten t
          (superimpose img2 bg
            (cropMarksOf lox loy hix hiy (img.width : ℤ) (img.height : ℤ)) rs3).out
          (superimpose img2 bg
            (cropMarksOf lox loy hix hiy (img.width : ℤ) (img.height : ℤ)) rs3).rest).fired := by
    simp [ptBFired, post_transform, hEC, hRZ]
  have hCF : ptCFired t img bg rs
      = (contrastStep t
          (brighten t
            (superimpose img2 bg
              (cropMarksOf lox loy hix hiy (img.width : ℤ) (img.height : ℤ)) rs3).out
            (superimpose img2 bg
              (cropMarksOf lox loy hix hiy (img.width : ℤ) (img.height : ℤ)) rs3).rest).out
          (brighten t
            (superimpose img2 bg
              (cropMarksOf lox loy hix hiy (img.width : ℤ) (img.height : ℤ)) rs3).out
            (superimpose img2 bg
              (cropMarksOf lox loy hix hiy (img.width : ℤ) (img.height : ℤ)) rs3).rest).rest).fired := by
    simp [ptCFired, post_transform, hEC, hRZ]
  have hPix : ptPix t img bg rs i j
      = (contrastStep t
          (brighten t
            (superimpose img2 bg
              (cropMarksOf lox loy hix hiy (img.width : ℤ) (img.height : ℤ)) rs3).out
            (superimpose img2 bg
              (cropMarksOf lox loy hix hiy (img.width : ℤ) (img.height : ℤ)) rs3).rest).out
          (brighten t
            (superimpose img2 bg
              (cropMarksOf lox loy hix hiy (img.width : ℤ) (img.height : ℤ)) rs3).out
            (superimpose img2 bg
              (cropMarksOf lox loy hix hiy (img.width : ℤ) (img.height : ℤ)) rs3).rest).rest).out.pix i j := by
    simp [ptPix, post_transform, hEC, hRZ]
  rw [hBF] at hb
  rw [hCF] at hc
  rw [hPix, contrastStep_not_fired _ _ _ hc, brighten_not_fired _ _ _ hb]
  have hout : (superimpose img2 bg
      (cropMarksOf lox loy hix hiy (img.width : ℤ) (img.height : ℤ)) rs3).out
      = pasteMask bg img2
        (superimpose img2 bg
          (cropMarksOf lox loy hix hiy (img.width : ℤ) (img.height : ℤ)) rs3).px
        (superimpose img2 bg
          (cropMarksOf lox loy hix hiy (img.width : ℤ) (img.height : ℤ)) rs3).py := rfl
  rw [hout]
  apply pasteMask_outside
  rw [hPx, hPy, hW, hH] at ho
  exact ho

/-!
C6.  Determinism of the sampling pipeline.
-/

/-- C6 (amended): with the inputs, the class list and the random stream
fixed, the composited image of a sampling iteration is the same whatever
the wall-clock time reads — the time string only flows into the
destination filename.  Full byte-identical output including filenames
therefore needs the clock fixed as well as the random source; two
executions at different times produce different destination names (see
the counterexample). -/
theorem c6_image_time_independent (B : Backend) (t : Tfms)
    (buckets : List (String × List String)) (bgs classes : List String)
    (outDir τ₁ τ₂ : String) (rs : R) :
    gsImg B t buckets bgs classes outDir τ₁ rs = gsImg B t buckets bgs classes outDir τ₂ rs := by
  unfold gsImg genSample next
  dsimp only
  cases pyChoice classes (rs.headD 0) with
  | none => rfl
  | some c =>
    dsimp only
    cases pyChoice ((buckets.lookup c).getD []) (rs.tail.headD 0) with
    | none => rfl
    | some loc =>
      dsimp only
      rcases hT : transform B t (B.load loc) rs.tail.tail with ⟨img1, rs4⟩
      dsimp only
      cases pyChoice bgs (rs4.headD 0) with
      | none => rfl
      | some bgLoc =>
        dsimp only
        cases post_transform t img1 (B.load bgLoc) rs4.tail with
        | none => rfl
        | some r => rfl

/-!
Concrete runs: witnesses and counterexamples.  The arithmetic of `ℚ` is
made locally semireducible so that `decide` can evaluate the pipeline in
the kernel.
-/

/-- A 4×4 constant foreground raster. -/
def cFg4 : Img := ⟨4, 4, fun _ _ => (50, 50, 50, 255)⟩

/-- An 8×8 constant background raster. -/
def cBg8 : Img := ⟨8, 8, fun _ _ => (100, 100, 100, 255)⟩

/-- Draws for a `post_transform` run on `cFg4`/`cBg8` whose x-axis crop
fires and trims the left edge (amount 1), with no further firing draws. -/
def rsC1 : R := [0, 1/2, 9/10, 9/10, 0, 0, 9/10, 1/2, 1/2, 9/10, 9/10]

/-- Draws for a `post_transform` run on `cFg`/`cBg` with no edge crop, a
thumbnail resize, placement at the origin, a firing brightness draw
(factor 13/10) and a non-firing contrast draw. -/
def rsC2 : R := [9/10, 9/10, 0, 0, 9/10, 0, 0, 0, 1/2, 0, 9/10]

/-- As `rsC2` but with neither lighting draw firing. -/
def rsC2b : R := [9/10, 9/10, 0, 0, 9/10, 0, 0, 9/10, 9/10]

/-- Draws for an `edge_crop` run on `cFg4` trimming the left edge by 1. -/
def rsC9 : R := [0, 1/2, 9/10, 9/10]

/-- A backend whose rotation and blur are the identity and whose loader
returns the concrete foreground for the foreground path and the concrete
background otherwise. -/
def idB : Backend := ⟨fun _ i => i, fun i => i, fun s => if s = "cat/A.png" then cFg else cBg⟩

/-- One class bucket holding one foreground path. -/
def cBuckets : List (String × List String) := [("cat", ["cat/A.png"])]

/-- Draws for a full sampling iteration through `genSample`: no flips, no
blur, no crop, thumbnail resize, origin placement, no lighting. -/
def rsC6 : R := [0, 0, 9/10, 3/10, 0, 9/10, 0, 9/10, 9/10, 0, 0, 9/10, 0, 0, 9/10, 9/10]

section ConcreteRuns

attribute [local semireducible] Rat.add Rat.mul Rat.inv Rat.sub

/-- C1 witness: the `rsC1` run marks the left edge and the edge-anchor
theorem forces its horizontal offset to 0. -/
theorem c1_edge_anchor_witness :
    (ptMarks reset_tfms cFg4 cBg8 rsC1).left = true ∧ ptPx reset_tfms cFg4 cBg8 rsC1 = 0 :=
  ⟨by decide, (c1_edge_anchor reset_tfms cFg4 cBg8 rsC1 rfl).1 (by decide)⟩

/-- C2 counterexample: in the `rsC2` run the point (3,3) lies outside the
placed foreground's bounding box, yet the output pixel there differs from
the original background pixel — the firing brightness adjustment scaled
the whole composited canvas after the paste.  This refutes the claim as
stated. -/
theorem c2_counterexample :
    outsideBox (ptPx reset_tfms cFg cBg rsC2) (ptPy reset_tfms cFg cBg rsC2)
      (ptFgW reset_tfms cFg cBg rsC2) (ptFgH reset_tfms cFg cBg rsC2) 3 3 ∧
    ptPix reset_tfms cFg cBg rsC2 3 3 ≠ cBg.pix 3 3 :=
  ⟨by decide, by decide⟩

/-- C2 witness: in the `rsC2b` run neither lighting draw fires and the
outside pixel (3,3) equals the original background pixel. -/
theorem c2_alpha_mask_outside_witness :
    ptPix reset_tfms cFg cBg rsC2b 3 3 = cBg.pix 3 3 :=
  c2_alpha_mask_outside reset_tfms cFg cBg rsC2b 3 3 rfl (by decide) (by decide) (by decide)

/-- C6 counterexample: the same inputs and the same random draws at two
different wall-clock readings produce different destination filenames
(`out/cat/A100.png` vs `out/cat/A200.png`), so the full persisted output
is not byte-identical under fixed seeding alone. -/
theorem c6_counterexample :
    gsName idB reset_tfms cBuckets ["bg.png"] ["cat"] "out" "100" rsC6
      ≠ gsName idB reset_tfms cBuckets ["bg.png"] ["cat"] "out" "200" rsC6 := by decide

/-- C9 witness: the `rsC9` run on the 4×4 foreground trims only the left
edge and keeps a positive-extent crop rectangle. -/
theorem c9_edge_crop_sound_witness :
    ¬((ecMarks reset_tfms cFg4 rsC9).left = true ∧ (ecMarks reset_tfms cFg4 rsC9).right = true) ∧
    (ecRect reset_tfms cFg4 rsC9).1 < (ecRect reset_tfms cFg4 rsC9).2.2.1 :=
  have h := c9_edge_crop_sound reset_tfms cFg4 rsC9 rfl (by decide) (by decide) (by decide)
    (by decide) (by decide) (by decide)
  ⟨h.1, h.2.2.1⟩

end ConcreteRuns
